import Mathlib

/-! CCF: the `aft::StateMachine` skeleton and the `ccf::Snapshotter`

A shallow embedding of

* `src/consensus/aft/impl/state_machine.h` (class `aft::StateMachine`), and
* `src/node/snapshotter.h` (class `ccf::Snapshotter`),

followed by theorems about the embedded operations.

Conventions.  Each C++ member function becomes a Lean function from the state
before the call to the state after it (and the returned value).  A member
function that can fail returns its outcome next to the state, so that what a
failing call leaves behind can be stated.  Objects reached through an interface
pointer (`IStartupStateMachine`, `IGlobalCommitHandler`) are a state of an
arbitrary type together with a table of functions on it.
-/

namespace aft

/-! ## Types of `kv/kv_types.h` and `consensus/aft/aft_types.h` -/

/-- Byte strings, the model of `std::vector<uint8_t>`. -/
abbrev Bytes := List (Fin 256)

/-- Node identifiers, the model of `kv::NodeId` (an unsigned 64-bit integer). -/
abbrev NodeId := Nat

/-- View numbers, the model of `kv::Consensus::View`.  A signed integer, so that
a negative view can be written down; `StateMachine.primary` converts it to
`size_t` the way the C++ `%` with a `size_t` operand does. -/
abbrev View := Int

/-- Store versions, the model of `kv::Version` (a signed integer). -/
abbrev Version := Int

/-- Requests.  The state machine only forwards a request to the startup
handler, so its content is kept as uninterpreted bytes. -/
abbrev RequestMessage := Bytes

/-- The value of a 64-bit integer after conversion to `size_t`: its residue
modulo `2^64`. -/
def to_size_t (v : Int) : Nat := (v % (2 ^ 64 : Int)).toNat

/-- Modelled from the spec: `aft::Replica` is declared in `replica.h`, absent
from the sources at hand.  The spec's data model gives it as
`{NodeId, certificate bytes}`, built by `Replica(node_id, cert)` and never
mutated afterwards. -/
structure Replica where
  id : NodeId
  cert : Bytes
deriving DecidableEq, Repr

/-- Modelled from the spec: the interface `IStartupStateMachine` of
`startup_state_machine.h`, absent from the sources at hand.  The spec gives the
contract `receive_request(request) -> Version`: the handler applies a request
and reports the version it landed at.  The handler object is a state of type
`σ`; the call may change it. -/
structure IStartupStateMachine (σ : Type) where
  receive_request : σ → RequestMessage → Version × σ

/-- Modelled from the spec: the interface `IGlobalCommitHandler` of
`global_commit_handler.h`, absent from the sources at hand.  The spec gives the
contract `perform_global_commit(version, view)` and
`get_view_for_version(version) -> View`.  The handler object is a state of type
`γ`; both calls may change it. -/
structure IGlobalCommitHandler (γ : Type) where
  perform_global_commit : γ → Version → View → γ
  get_view_for_version : γ → Version → View × γ

/-- A call made by the state machine on one of its two handlers, recorded in
the order the calls are made. -/
inductive HandlerCall where
  | startup_receive_request (request : RequestMessage)
  | perform_global_commit (version : Version) (view : View)
  | get_view_for_version (version : Version)
deriving DecidableEq, Repr

/-- Modelled from the spec: `ccf::ccf_logic_error` is declared in
`ds/ccf_exception.h`, absent from the sources at hand.  The spec calls it a
"fatal logic error": an exception value, which carries its message.  Such a
value interrupts a function when it is thrown; building one does not. -/
structure ccf_logic_error where
  what : String
deriving DecidableEq, Repr

/-! ## The configuration map -/

/-- The model of `std::map<kv::NodeId, std::unique_ptr<Replica>>`: the entries
in increasing key order. -/
abbrev Configuration := List (NodeId × Replica)

namespace Configuration

/-- The keys of the map, in order. -/
def keys (c : Configuration) : List NodeId := c.map Prod.fst

/-- The model of `std::map::size`. -/
def size (c : Configuration) : Nat := c.length

/-- The model of `std::map::find`: the replica stored under `k`, if any. -/
def find (c : Configuration) (k : NodeId) : Option Replica := c.lookup k

/-- Insertion of a new entry at its place in key order. -/
def insert_sorted : Configuration → NodeId → Replica → Configuration
  | [], k, r => [(k, r)]
  | (k', r') :: rest, k, r =>
    if k < k' then (k, r) :: (k', r') :: rest
    else (k', r') :: insert_sorted rest k r

/-- The model of `std::map::emplace`: the entry is inserted only when the map
holds no entry with that key; otherwise the map is left as it is. -/
def emplace (c : Configuration) (k : NodeId) (r : Replica) : Configuration :=
  if (c.find k).isSome then c else c.insert_sorted k r

end Configuration

/-! ## `class StateMachine` -/

/-- The data members of `aft::StateMachine`.  `startup_state_machine` and
`global_commit_handler` are the states of the two owned handler objects.
`calls` is a ghost field: the handler calls made so far, oldest first.  The
member `last_global_commit` is declared but neither initialised, read nor
written by any member function, and is left out; `configuration_lock` guards
`configuration` and has no sequential content. -/
structure StateMachine (σ γ : Type) where
  my_node_id : NodeId
  current_view : View
  last_good_version : Version
  is_network_open : Bool
  startup_state_machine : σ
  global_commit_handler : γ
  configuration : Configuration
  calls : List HandlerCall

namespace StateMachine

variable {σ γ : Type}

/-- The member function `add_node`:
`configuration.emplace(node_id, std::make_unique<Replica>(node_id, cert))`. -/
def add_node (s : StateMachine σ γ) (node_id : NodeId) (cert : Bytes) :
    StateMachine σ γ :=
  { s with configuration := s.configuration.emplace node_id ⟨node_id, cert⟩ }

/-- The constructor: the member initialisers, then `add_node(my_node_id, cert)`
on the still empty configuration. -/
def init (my_node_id_ : NodeId) (cert : Bytes)
    (startup_state_machine_ : σ) (global_commit_handler_ : γ) : StateMachine σ γ :=
  add_node
    { my_node_id := my_node_id_
      current_view := 0
      last_good_version := 0
      is_network_open := false
      startup_state_machine := startup_state_machine_
      global_commit_handler := global_commit_handler_
      configuration := []
      calls := [] }
    my_node_id_ cert

/-- The member function `receive_request`.  While the network is not open the
request goes to the startup handler, the version it returns is handed to
`perform_global_commit` with the current view, and `last_good_version` is set to
it.  Otherwise the body is the expression statement
`ccf::ccf_logic_error("Not Implemented");`: the error value is built and
dropped, nothing is thrown, and the function returns with the state as it
was. -/
def receive_request (ssm : IStartupStateMachine σ) (gch : IGlobalCommitHandler γ)
    (s : StateMachine σ γ) (request : RequestMessage) :
    Except ccf_logic_error Unit × StateMachine σ γ :=
  if !s.is_network_open then
    let r := ssm.receive_request s.startup_state_machine request
    let version := r.1
    let g := gch.perform_global_commit s.global_commit_handler version s.current_view
    (Except.ok (),
      { s with
        startup_state_machine := r.2
        global_commit_handler := g
        last_good_version := version
        calls := s.calls ++
          [HandlerCall.startup_receive_request request,
           HandlerCall.perform_global_commit version s.current_view] })
  else
    (Except.ok (), s)

/-- The member function `primary`: `current_view % configuration.size()`, the
view converted to `size_t` first.  A modulus by zero has no value. -/
def primary (s : StateMachine σ γ) : Option NodeId :=
  if s.configuration.size = 0 then none
  else some (to_size_t s.current_view % s.configuration.size)

/-- The member function `is_primary`: `my_node_id == primary()`. -/
def is_primary (s : StateMachine σ γ) : Option Bool :=
  (primary s).map fun p => decide (s.my_node_id = p)

/-- The member function `view`. -/
def view (s : StateMachine σ γ) : View := s.current_view

/-- The member function `get_view_for_version`: the call is passed on to the
global commit handler. -/
def get_view_for_version (gch : IGlobalCommitHandler γ)
    (s : StateMachine σ γ) (version : Version) : View × StateMachine σ γ :=
  let r := gch.get_view_for_version s.global_commit_handler version
  (r.1,
    { s with
      global_commit_handler := r.2
      calls := s.calls ++ [HandlerCall.get_view_for_version version] })

/-- The member function `get_last_committed_version`. -/
def get_last_committed_version (s : StateMachine σ γ) : Version :=
  s.last_good_version

/-- The public operations of the class, as a caller can invoke them. -/
inductive Op where
  | receive_request (request : RequestMessage)
  | add_node (node_id : NodeId) (cert : Bytes)
  | is_primary
  | primary
  | view
  | get_view_for_version (version : Version)
  | get_last_committed_version
deriving DecidableEq, Repr

/-- The state after one public operation.  `receive_request` with the network
open leaves the object as it was. -/
def step (ssm : IStartupStateMachine σ) (gch : IGlobalCommitHandler γ)
    (s : StateMachine σ γ) : Op → StateMachine σ γ
  | Op.receive_request request => (receive_request ssm gch s request).2
  | Op.add_node node_id cert => add_node s node_id cert
  | Op.is_primary => s
  | Op.primary => s
  | Op.view => s
  | Op.get_view_for_version version => (get_view_for_version gch s version).2
  | Op.get_last_committed_version => s

/-- The state after a sequence of public operations, first to last. -/
def exec (ssm : IStartupStateMachine σ) (gch : IGlobalCommitHandler γ)
    (s : StateMachine σ γ) (ops : List Op) : StateMachine σ γ :=
  ops.foldl (step ssm gch) s

/-- The state after a sequence of `add_node` calls, first to last. -/
def add_nodes (s : StateMachine σ γ) (nodes : List (NodeId × Bytes)) :
    StateMachine σ γ :=
  nodes.foldl (fun t n => add_node t n.1 n.2) s

/-- The state with `current_view` set to `v` and everything else kept: the
class has no operation that writes the view, so statements about an arbitrary
view place it by hand. -/
def with_view (s : StateMachine σ γ) (v : View) : StateMachine σ γ :=
  { s with current_view := v }

/-- The values `get_last_committed_version()` shows after each of a sequence of
`receive_request` calls, first to last. -/
def committed_versions (ssm : IStartupStateMachine σ) (gch : IGlobalCommitHandler γ) :
    StateMachine σ γ → List RequestMessage → List Version
  | _, [] => []
  | s, request :: rest =>
    let s' := (receive_request ssm gch s request).2
    get_last_committed_version s' :: committed_versions ssm gch s' rest

end StateMachine

/-- The versions a startup handler returns on a sequence of requests, first to
last, when started in state `st`. -/
def startup_versions {σ : Type} (ssm : IStartupStateMachine σ) :
    σ → List RequestMessage → List Version
  | _, [] => []
  | st, request :: rest =>
    let r := ssm.receive_request st request
    r.1 :: startup_versions ssm r.2 rest

/-! ### Sample handlers, used to evaluate the operations on concrete inputs -/

/-- A startup handler that counts upwards: each request lands at the next
version. -/
def counting_startup : IStartupStateMachine Int :=
  ⟨fun n _ => (n + 1, n + 1)⟩

/-- A startup handler that counts downwards: each request is reported one
version below the one before. -/
def countdown_startup : IStartupStateMachine Int :=
  ⟨fun n _ => (n, n - 1)⟩

/-- A global commit handler that records the committed `(version, view)`
pairs, newest first, and answers `get_view_for_version` from that record. -/
def recording_commit : IGlobalCommitHandler (List (Version × View)) :=
  ⟨fun g version view => (version, view) :: g,
   fun g version => ((g.lookup version).getD 0, g)⟩

end aft

namespace ccf

open aft (Bytes)

/-! ## Types used by `class Snapshotter` -/

/-- Ledger indices, the model of `consensus::Index` (declared in
`consensus/ledger_enclave_types.h`): an unsigned 64-bit integer, kept as a
natural number.  The one piece of arithmetic the class does on indices, the
difference in `snapshot`, is `sub64`. -/
abbrev Index := Nat

/-- The difference of two unsigned 64-bit integers as the machine computes it:
modulo `2^64`. -/
def sub64 (a b : Nat) : Nat := (((a : Int) - (b : Int)) % (2 ^ 64 : Int)).toNat

/-- The model of `kv::CommitSuccess`, the result of `kv::Tx::commit`. -/
inductive CommitSuccess where
  | OK
  | CONFLICT
  | NO_REPLICATE
deriving DecidableEq, Repr

/-- Modelled from the spec: `kv::AbstractStore::AbstractSnapshot` is declared
in `kv/kv_types.h`, absent from the sources at hand.  The spec calls it a
point-in-time snapshot handle extracted from the store at a version;
`get_version()` is the field `version`, `tables` is the captured content. -/
structure AbstractSnapshot where
  version : Index
  tables : Bytes
deriving DecidableEq, Repr

/-- Modelled from the spec: what `Snapshotter` uses of `NetworkState` and of
`crypto`, all declared in headers absent from the sources at hand.  The spec
gives the store contract `snapshot(version) -> SnapshotHandle` and
`serialise_snapshot(SnapshotHandle) -> bytes`, and a cryptographic content hash
of the serialised bytes.  `state_at idx` is the content of the store's tables
at version `idx`. -/
structure NetworkState where
  state_at : Index → Bytes
  serialise_snapshot : AbstractSnapshot → Bytes
  Sha256Hash : Bytes → Bytes

/-- The call `network.tables->snapshot(idx)`: the handle of the store's content
at version `idx`. -/
def NetworkState.snapshot (network : NetworkState) (idx : Index) : AbstractSnapshot :=
  ⟨idx, network.state_at idx⟩

/-- The value type of the snapshot-evidence table: `{hash, index}`. -/
structure SnapshotHash where
  hash : Bytes
  version : Index
deriving DecidableEq, Repr

/-- The model of the table `network.snapshot_evidence`: its committed entries,
at most one per key. -/
abbrev SnapshotEvidence := List (Nat × SnapshotHash)

/-- The effect of a committed `view->put(k, v)`: the entry under `k` is
replaced. -/
def SnapshotEvidence.put (t : SnapshotEvidence) (k : Nat) (v : SnapshotHash) :
    SnapshotEvidence :=
  (k, v) :: t.filter fun e => e.1 != k

/-- The member `struct SnapshotMsg`.  Its field `self` is the snapshotter that
scheduled the job, which is the one state of this model. -/
structure SnapshotMsg where
  snapshot : AbstractSnapshot
deriving DecidableEq, Repr

/-- Modelled from the spec: `threading::MAIN_THREAD_ID`, declared in
`ds/thread_messaging.h`, absent from the sources at hand.  The execution
contexts are numbered from `0`, the main (control) context first. -/
def MAIN_THREAD_ID : Nat := 0

/-- Modelled from the spec: `threading::ThreadMessaging`, declared in
`ds/thread_messaging.h`, absent from the sources at hand: the number of
execution contexts and the jobs handed to `add_task` that have not run yet,
oldest first, each with the context it was queued on. -/
structure ThreadMessaging where
  thread_count : Nat
  tasks : List (Nat × SnapshotMsg)
deriving DecidableEq, Repr

/-- The call `thread_messaging.add_task(tid, msg)`. -/
def ThreadMessaging.add_task (tm : ThreadMessaging) (tid : Nat) (msg : SnapshotMsg) :
    ThreadMessaging :=
  { tm with tasks := tm.tasks ++ [(tid, msg)] }

/-- What an observer of the node sees the snapshotter do, in order. -/
inductive Event where
  | evidence_committed (key : Nat) (value : SnapshotHash)
  | evidence_rejected (idx : Index) (rc : CommitSuccess)
  | ledger_snapshot (idx : Index) (serialised_snapshot : Bytes)
deriving DecidableEq, Repr

/-- Modelled from the spec: the failure raised by `CCF_ASSERT_FMT`, a macro of
`ds/ccf_assert.h`, absent from the sources at hand.  The spec calls a
`snapshot` request below the last snapshot index "a programming-error-level
fatal assertion".  The value carries the two numbers of the message. -/
structure assertion_failure where
  idx : Index
  last_snapshot_idx : Index
deriving DecidableEq, Repr

/-! ## `class Snapshotter` -/

/-- The data members of `ccf::Snapshotter` and the state of what it writes to.
`to_host` holds the `consensus::ledger_snapshot` messages written to the ring
buffer, oldest first.  `generation_count` is the function-local static of
`get_execution_thread`.  `snapshot_evidence` is the committed content of
`network.snapshot_evidence`, `thread_messaging` the process-wide task queues.
`events` is a ghost field, the trace of evidence commits and messages. -/
structure Snapshotter where
  to_host : List (Index × Bytes)
  last_snapshot_idx : Index
  snapshot_interval : Nat
  generation_count : Nat
  snapshot_evidence : SnapshotEvidence
  thread_messaging : ThreadMessaging
  events : List Event
deriving DecidableEq, Repr

namespace Snapshotter

/-- The constructor: `last_snapshot_idx = 0`, the given interval, nothing
written yet.  The process-wide task queues are those of the caller. -/
def init (snapshot_interval_ : Nat) (thread_messaging_ : ThreadMessaging) : Snapshotter :=
  { to_host := []
    last_snapshot_idx := 0
    snapshot_interval := snapshot_interval_
    generation_count := 0
    snapshot_evidence := []
    thread_messaging := thread_messaging_
    events := [] }

/-- The member function `get_execution_thread`:
`(generation_count++ % thread_count) + 1` when `thread_count > 1`, else
`MAIN_THREAD_ID`.  The counter is a `size_t` and wraps at `2^64`. -/
def get_execution_thread (s : Snapshotter) : Nat × Snapshotter :=
  if s.thread_messaging.thread_count > 1 then
    ((s.generation_count % s.thread_messaging.thread_count) + 1,
      { s with generation_count := (s.generation_count + 1) % 2 ^ 64 })
  else
    (MAIN_THREAD_ID, s)

/-- The member function `record_snapshot`: one `consensus::ledger_snapshot`
message `(idx, serialised_snapshot)` to the host. -/
def record_snapshot (s : Snapshotter) (idx : Index) (serialised_snapshot : Bytes) :
    Snapshotter :=
  { s with
    to_host := s.to_host ++ [(idx, serialised_snapshot)]
    events := s.events ++ [Event.ledger_snapshot idx serialised_snapshot] }

/-- The member function `snapshot_`, the body of a checkpoint job.  `rc` is the
value `tx.commit()` returns, decided by the store.  The write
`view->put(0, {snapshot_hash, snapshot_idx})` reaches the table when the commit
succeeds. -/
def snapshot_ (network : NetworkState) (s : Snapshotter)
    (snapshot : AbstractSnapshot) (rc : CommitSuccess) : Snapshotter :=
  let snapshot_idx := snapshot.version
  let serialised_snapshot := network.serialise_snapshot snapshot
  let snapshot_hash := network.Sha256Hash serialised_snapshot
  if rc ≠ CommitSuccess.OK then
    { s with events := s.events ++ [Event.evidence_rejected snapshot_idx rc] }
  else
    let s1 : Snapshotter :=
      { s with
        snapshot_evidence := s.snapshot_evidence.put 0 ⟨snapshot_hash, snapshot_idx⟩
        events := s.events ++ [Event.evidence_committed 0 ⟨snapshot_hash, snapshot_idx⟩] }
    let s2 := record_snapshot s1 snapshot_idx serialised_snapshot
    { s2 with last_snapshot_idx := snapshot_idx }

/-- The static member function `snapshot_cb`: `self->snapshot_(snapshot)`. -/
def snapshot_cb (network : NetworkState) (s : Snapshotter) (msg : SnapshotMsg)
    (rc : CommitSuccess) : Snapshotter :=
  snapshot_ network s msg.snapshot rc

/-- The member function `snapshot`.  The assertion `idx >= last_snapshot_idx`
comes first; then, when `idx - last_snapshot_idx > snapshot_interval`, a job
carrying `network.tables->snapshot(idx)` is queued on the context
`get_execution_thread()` names. -/
def snapshot (network : NetworkState) (s : Snapshotter) (idx : Index) :
    Except assertion_failure Unit × Snapshotter :=
  if ¬ (idx ≥ s.last_snapshot_idx) then
    (Except.error ⟨idx, s.last_snapshot_idx⟩, s)
  else if sub64 idx s.last_snapshot_idx > s.snapshot_interval then
    let msg : SnapshotMsg := ⟨network.snapshot idx⟩
    let r := get_execution_thread s
    (Except.ok (),
      { r.2 with thread_messaging := r.2.thread_messaging.add_task r.1 msg })
  else
    (Except.ok (), s)

/-- The jobs waiting to run, oldest first. -/
def pending (s : Snapshotter) : List (Nat × SnapshotMsg) := s.thread_messaging.tasks

/-- One turn of the execution context `tid`: its oldest waiting job, if it has
one, leaves the queue and runs; `rc` is what the job's `tx.commit()` returns. -/
def run_task (network : NetworkState) (s : Snapshotter) (tid : Nat)
    (rc : CommitSuccess) : Snapshotter :=
  match s.thread_messaging.tasks.find? fun t => t.1 == tid with
  | none => s
  | some t =>
    snapshot_cb network
      { s with thread_messaging :=
          { s.thread_messaging with tasks := s.thread_messaging.tasks.erase t } }
      t.2 rc

/-- What can happen to a snapshotter: a caller invokes `snapshot(idx)`, or an
execution context runs its next job. -/
inductive Action where
  | snapshot (idx : Index)
  | run (tid : Nat) (rc : CommitSuccess)
deriving DecidableEq, Repr

/-- The state after one action. -/
def step (network : NetworkState) (s : Snapshotter) : Action → Snapshotter
  | Action.snapshot idx => (snapshot network s idx).2
  | Action.run tid rc => run_task network s tid rc

/-- The state after a sequence of actions, first to last. -/
def exec (network : NetworkState) (s : Snapshotter) (actions : List Action) :
    Snapshotter :=
  actions.foldl (step network) s

end Snapshotter

/-- A sample store environment for evaluating the operations: the content at
version `idx` is `idx` bytes of zero, serialisation prefixes the version's low
byte, and the hash is the reversed input (a stand-in, nothing depends on its
being cryptographic). -/
def sample_network : NetworkState :=
  { state_at := fun idx => List.replicate idx 0
    serialise_snapshot := fun snap => Fin.ofNat snap.version :: snap.tables
    Sha256Hash := fun b => b.reverse }

end ccf

namespace ccf

open aft (Bytes)

namespace Snapshotter

/-- The values of `last_snapshot_idx` after each action of a sequence. -/
def last_snapshot_idx_trace (network : NetworkState) :
    Snapshotter → List Action → List Index
  | _, [] => []
  | s, a :: rest =>
    (step network s a).last_snapshot_idx ::
      last_snapshot_idx_trace network (step network s a) rest

/-- Whether every `snapshot(idx)` call of a sequence of actions is made with
`idx >= last_snapshot_idx` at the time of the call. -/
def calls_meet_precondition (network : NetworkState) :
    Snapshotter → List Action → Bool
  | _, [] => true
  | s, Action.snapshot idx :: rest =>
    decide (idx ≥ s.last_snapshot_idx) &&
      calls_meet_precondition network (step network s (Action.snapshot idx)) rest
  | s, Action.run tid rc :: rest =>
    calls_meet_precondition network (step network s (Action.run tid rc)) rest

/-- The values returned by `n` successive calls of `get_execution_thread`. -/
def execution_threads : Snapshotter → Nat → List Nat
  | _, 0 => []
  | s, n + 1 =>
    (get_execution_thread s).1 :: execution_threads (get_execution_thread s).2 n

end Snapshotter

end ccf

/-! ## The store and its transaction history, as `node/test/snapshot.cpp` uses them -/

namespace kv

open aft (Bytes)

/-- Modelled from the spec: `ccf::MerkleTreeHistory` of `node/history.h`, absent
from the sources at hand.  The spec calls the Transaction History "an
append-only hash structure producing a single verifiable root", with
`append(hash)` extending the root deterministically and `get_root()` a pure
function of all appended hashes.  The model is a Merkle tree kept as the roots
of its complete subtrees, newest first, each with its height; a node's hash is
the hash of its two children's hashes joined. -/
structure MerkleTreeHistory where
  peaks : List (Nat × Bytes)
deriving DecidableEq, Repr

namespace MerkleTreeHistory

/-- Modelled from the spec: the history to which nothing has been appended. -/
def empty : MerkleTreeHistory := ⟨[]⟩

/-- Modelled from the spec: the step of `append`.  A subtree of height `h` with
root `y` joins the subtrees to its left: two subtrees of equal height merge into
one of the next height. -/
def push (H : Bytes → Bytes) : List (Nat × Bytes) → Nat → Bytes → List (Nat × Bytes)
  | [], h, y => [(h, y)]
  | (h', x) :: rest, h, y =>
    if h' = h then push H rest (h + 1) (H (x ++ y))
    else (h, y) :: (h', x) :: rest

/-- Modelled from the spec: `append(hash)`, one more leaf. -/
def append (H : Bytes → Bytes) (t : MerkleTreeHistory) (hash : Bytes) :
    MerkleTreeHistory :=
  ⟨push H t.peaks 0 hash⟩

/-- Modelled from the spec: `get_root()`, the subtree roots folded from the
right into one hash; the hash of the empty string for the tree with no leaf. -/
def get_root (H : Bytes → Bytes) (t : MerkleTreeHistory) : Bytes :=
  match t.peaks with
  | [] => H []
  | p :: rest => rest.foldl (fun acc q => H (q.2 ++ acc)) p.2

/-- Modelled from the spec: the "mini-tree", the partial internal structure
from which a history can be rebuilt.  Its byte encoding is not modelled. -/
def serialise (t : MerkleTreeHistory) : List (Nat × Bytes) := t.peaks

/-- Modelled from the spec: the constructor `MerkleTreeHistory(tree)`, a
history rebuilt from a mini-tree. -/
def deserialise (tree : List (Nat × Bytes)) : MerkleTreeHistory := ⟨tree⟩

/-- The history after appending a list of leaf hashes, first to last. -/
def append_all (H : Bytes → Bytes) (t : MerkleTreeHistory) (hashes : List Bytes) :
    MerkleTreeHistory :=
  hashes.foldl (append H) t

end MerkleTreeHistory

/-- Modelled from the spec: the signature record of `node/signatures.h`, absent
from the sources at hand: the version of the signature transaction, the root it
covers, and the mini-tree of the history just before the signature (the field
`tree` the test reads).  The signing key and the signature bytes are left
out. -/
structure Signature where
  seqno : Nat
  root : Bytes
  tree : List (Nat × Bytes)
deriving DecidableEq, Repr

/-- Modelled from the spec: what a committed transaction writes.  The test
commits writes `put(key, value)` to the application map and, through
`emit_signature`, a record at key 0 of the signatures table. -/
inductive Tx where
  | put (key value : Bytes)
  | signature (sig : Signature)
deriving DecidableEq, Repr

/-- Modelled from the spec: the hash and the wire form of a transaction, both
outside the specified core.  `serialise_tx` is what the consensus is handed on
commit (`get_latest_data`), `Sha256Hash` is `crypto::Sha256Hash`. -/
structure Encoding where
  Sha256Hash : Bytes → Bytes
  serialise_tx : Tx → Bytes

/-- Modelled from the spec: the tables of the test's stores, the application
map and the single-slot signatures table. -/
structure Tables where
  string_map : List (Bytes × Bytes)
  signatures : Option Signature
deriving DecidableEq, Repr

/-- Modelled from the spec: the tables of a store on which nothing was
committed. -/
def Tables.empty : Tables := ⟨[], none⟩

/-- Modelled from the spec: the tables after the writes of a transaction. -/
def Tables.apply (t : Tables) : Tx → Tables
  | Tx.put key value =>
    { t with string_map := (key, value) :: t.string_map.filter fun e => e.1 != key }
  | Tx.signature sig => { t with signatures := some sig }

/-- The tables after a list of transactions, first to last. -/
def Tables.replay (t : Tables) (txs : List Tx) : Tables := txs.foldl Tables.apply t

/-- Modelled from the spec: `kv::Store` of `kv/store.h`, absent from the
sources at hand, with its history.  A store holds the tables it started from
(empty, or those of a snapshot) at version `base_version`, the transactions
committed since, oldest first, and the history `replicated_state_tree`. -/
structure Store where
  base_version : Nat
  base_tables : Tables
  entries : List Tx
  history : MerkleTreeHistory
deriving DecidableEq, Repr

/-- Modelled from the spec: `kv::DeserialiseSuccess`, the two outcomes
`{PASS, FAILED}` of `deserialise_snapshot`. -/
inductive DeserialiseSuccess where
  | PASS
  | FAILED
deriving DecidableEq, Repr

/-- Modelled from the spec: a snapshot of a store, `snapshot(version) ->
SnapshotHandle`, and what its serialised form carries: the version, the tables
at that version, and the hash of the transaction committed at that version (the
spec's "resume hash").  The byte framing is not modelled. -/
structure Snapshot where
  version : Nat
  tables : Tables
  hash_at_snapshot : Bytes
deriving DecidableEq, Repr

namespace Store

/-- Modelled from the spec: a fresh store with a fresh history.  The schema is
fixed in this model, so a fresh store is the result of `clone_schema` as
well. -/
def fresh : Store := ⟨0, Tables.empty, [], MerkleTreeHistory.empty⟩

/-- Modelled from the spec: the version of the last committed transaction. -/
def current_version (s : Store) : Nat := s.base_version + s.entries.length

/-- Modelled from the spec: the current content of the tables. -/
def tables (s : Store) : Tables := s.base_tables.replay s.entries

/-- Modelled from the spec: the leaf a transaction adds to the history, the
hash of its serialised form. -/
def leaf (enc : Encoding) (tx : Tx) : Bytes := enc.Sha256Hash (enc.serialise_tx tx)

/-- Modelled from the spec: a successful `tx.commit()`, and `deserialise` of a
serialised transaction on a store that follows another: the transaction gets
the next version, its writes reach the tables, and the hash of its serialised
form is appended to the history. -/
def commit (enc : Encoding) (s : Store) (tx : Tx) : Store :=
  { s with
    entries := s.entries ++ [tx]
    history := s.history.append enc.Sha256Hash (leaf enc tx) }

/-- Modelled from the spec: `StubConsensus::get_latest_data`, the serialised
form of the last committed transaction. -/
def get_latest_data (enc : Encoding) (s : Store) : Option Bytes :=
  s.entries.getLast?.map enc.serialise_tx

/-- Modelled from the spec: `get_replicated_state_root`. -/
def get_replicated_state_root (enc : Encoding) (s : Store) : Bytes :=
  s.history.get_root enc.Sha256Hash

/-- Modelled from the spec: `emit_signature`: a transaction that writes, at key
0 of the signatures table, the record of the current root and of the mini-tree
of the history as it is before this transaction. -/
def emit_signature (enc : Encoding) (s : Store) : Store :=
  commit enc s
    (Tx.signature
      { seqno := s.current_version + 1
        root := s.get_replicated_state_root enc
        tree := s.history.serialise })

/-- Modelled from the spec: `snapshot(version)` followed by
`serialise_snapshot`: the tables as they were after the transaction of that
version, with the hash of that transaction.  There is a snapshot at the
versions of the transactions the store committed. -/
def snapshot (enc : Encoding) (s : Store) (version : Nat) : Option Snapshot :=
  if version ≤ s.base_version then none
  else
    (s.entries.get? (version - s.base_version - 1)).map fun tx =>
      { version := version
        tables := s.base_tables.replay (s.entries.take (version - s.base_version))
        hash_at_snapshot := leaf enc tx }

/-- Modelled from the spec: `deserialise_snapshot(bytes) -> {PASS, FAILED}`.
The target seeds its history from the signature record in the snapshot: without
one it reports `FAILED` and stays as it was; with one it takes the snapshot's
tables and version, rebuilds the history from the record's mini-tree and
appends the resume hash. -/
def deserialise_snapshot (enc : Encoding) (target : Store) (snap : Snapshot) :
    DeserialiseSuccess × Store :=
  match snap.tables.signatures with
  | none => (DeserialiseSuccess.FAILED, target)
  | some sig =>
    (DeserialiseSuccess.PASS,
      { base_version := snap.version
        base_tables := snap.tables
        entries := []
        history :=
          (MerkleTreeHistory.deserialise sig.tree).append enc.Sha256Hash
            snap.hash_at_snapshot })

/-- What the test does to its source store: commit a write, or emit a
signature. -/
inductive Op where
  | put (key value : Bytes)
  | emit_signature
deriving DecidableEq, Repr

/-- The store after one operation. -/
def step (enc : Encoding) (s : Store) : Op → Store
  | Op.put key value => commit enc s (Tx.put key value)
  | Op.emit_signature => emit_signature enc s

/-- The store after a sequence of operations, first to last. -/
def run (enc : Encoding) (s : Store) (ops : List Op) : Store :=
  ops.foldl (step enc) s

/-- The store after a list of transactions, first to last (committed on a
source, or deserialised on a target that follows it). -/
def commit_all (enc : Encoding) (s : Store) (txs : List Tx) : Store :=
  txs.foldl (commit enc) s

end Store

/-- A sample encoding for evaluating the operations: a transaction's wire form
is a tag byte followed by its fields, and the hash keeps the length and a
running sum of the input (a stand-in, nothing depends on its being
cryptographic). -/
def sample_encoding : Encoding :=
  { Sha256Hash := fun b =>
      [Fin.ofNat b.length, b.foldl (fun acc x => acc * 31 + x + 7) 0]
    serialise_tx := fun tx =>
      match tx with
      | Tx.put key value => 0 :: (key ++ value)
      | Tx.signature sig =>
        1 :: Fin.ofNat sig.seqno :: (sig.root ++ sig.tree.flatMap fun p => Fin.ofNat p.1 :: p.2) }

/-- The source store of the test: three writes, then a signature. -/
def test_source : Store :=
  Store.run sample_encoding Store.fresh
    [Store.Op.put [1] [9], Store.Op.put [2] [9], Store.Op.put [3] [9],
     Store.Op.emit_signature]

end kv

/-! # Theorems -/

namespace aft

/-! ## Facts about the configuration map -/

namespace Configuration

theorem size_insert_sorted (c : Configuration) (k : NodeId) (r : Replica) :
    (c.insert_sorted k r).size = c.size + 1 := by
  induction c with
  | nil => rfl
  | cons e rest ih =>
    obtain ⟨k', r'⟩ := e
    unfold insert_sorted
    split
    · simp [size]
    · simp only [size, List.length_cons] at ih ⊢
      omega

theorem mem_keys_insert_sorted (c : Configuration) (k x : NodeId) (r : Replica) :
    x ∈ (c.insert_sorted k r).keys ↔ x = k ∨ x ∈ c.keys := by
  induction c with
  | nil => simp [insert_sorted, keys]
  | cons e rest ih =>
    obtain ⟨k', r'⟩ := e
    unfold insert_sorted
    split
    · simp [keys]
    · simp only [keys, List.map_cons, List.mem_cons] at ih ⊢
      rw [ih]
      tauto

theorem find_isSome_iff (c : Configuration) (k : NodeId) :
    (c.find k).isSome = true ↔ k ∈ c.keys := by
  induction c with
  | nil => simp [find, keys]
  | cons e rest ih =>
    obtain ⟨k', r'⟩ := e
    simp only [find, keys, List.map_cons, List.mem_cons] at ih ⊢
    by_cases h : k = k'
    · subst h
      simp [List.lookup]
    · have hb : (k == k') = false := by simpa using h
      simp [List.lookup, hb, h, ih]

theorem size_emplace_pos (c : Configuration) (k : NodeId) (r : Replica) :
    0 < (c.emplace k r).size := by
  unfold emplace
  split
  · rename_i h
    cases c with
    | nil => simp [find] at h
    | cons e rest => simp [size]
  · rw [size_insert_sorted]
    omega

theorem size_le_emplace (c : Configuration) (k : NodeId) (r : Replica) :
    c.size ≤ (c.emplace k r).size := by
  unfold emplace
  split
  · exact le_refl _
  · rw [size_insert_sorted]
    omega

theorem mem_keys_emplace (c : Configuration) (k x : NodeId) (r : Replica) :
    x ∈ (c.emplace k r).keys ↔ x = k ∨ x ∈ c.keys := by
  unfold emplace
  split
  · rename_i h
    rw [find_isSome_iff] at h
    constructor
    · exact Or.inr
    · rintro (rfl | h') <;> assumption
  · exact mem_keys_insert_sorted c k x r

end Configuration

/-! ## Facts about `StateMachine` -/

namespace StateMachine

variable {σ γ : Type}

theorem to_size_t_of_nonneg (v : Int) (h0 : 0 ≤ v) (h1 : v < 2 ^ 64) :
    (to_size_t v : Int) = v := by
  unfold to_size_t
  rw [Int.emod_eq_of_lt h0 h1]
  exact Int.toNat_of_nonneg h0

theorem primary_of_size_pos (s : StateMachine σ γ) (h : 0 < s.configuration.size) :
    primary s = some (to_size_t s.current_view % s.configuration.size) := by
  unfold primary
  rw [if_neg (by omega)]

theorem size_pos_add_nodes (nodes : List (NodeId × Bytes)) (s : StateMachine σ γ)
    (h : 0 < s.configuration.size) : 0 < (add_nodes s nodes).configuration.size := by
  induction nodes generalizing s with
  | nil => exact h
  | cons n rest ih =>
    exact ih (add_node s n.1 n.2) (Configuration.size_emplace_pos _ _ _)

theorem size_pos_init (n : NodeId) (cert : Bytes) (st : σ) (g : γ) :
    0 < (init n cert st g).configuration.size :=
  Configuration.size_emplace_pos [] n ⟨n, cert⟩

theorem with_view_configuration (s : StateMachine σ γ) (v : View) :
    (with_view s v).configuration = s.configuration := rfl

theorem with_view_current_view (s : StateMachine σ γ) (v : View) :
    (with_view s v).current_view = v := rfl

theorem configuration_init (n : NodeId) (cert : Bytes) (st : σ) (g : γ) :
    (init n cert st g).configuration = [(n, ⟨n, cert⟩)] := rfl

end StateMachine

/-! ## Claims about `StateMachine` -/

open StateMachine

/-- C1, as stated, fails: a state machine built for node 5, extended by
`add_node(7, _)` and `add_node(9, _)`, in view 4, has `primary() = 1`, and 1 is
not a key of the configuration `{5, 7, 9}`. -/
theorem C1_primary_not_a_key :
    ([5, 7, 9] : List NodeId).Nodup ∧
    ¬ ∃ p, primary (with_view (add_nodes (init 5 [] () ()) [(7, []), (9, [])]) 4) = some p ∧
        p ∈ (with_view (add_nodes (init 5 [] () ()) [(7, []), (9, [])]) 4).configuration.keys := by
  refine ⟨by decide, ?_⟩
  rintro ⟨p, hp, hmem⟩
  have h1 : primary (with_view (add_nodes (init 5 [] () ()) [(7, []), (9, [])]) 4)
      = some 1 := by decide
  rw [h1] at hp
  cases hp
  revert hmem
  decide

/-- C1 (amended): for every state machine built by the constructor and then
extended by any sequence of `add_node` calls, and for every view value,
`primary()` does not fail; the value it returns is the view (converted to
`size_t`) modulo the size of the configuration, hence below that size, and
equal to `view mod size` for a view in `0 .. 2^64 - 1`; it is a key of the
configuration whenever the keys are exactly the numbers below the size. -/
theorem C1_primary_total_below_size (n : NodeId) (cert : Bytes) (st : σ) (g : γ)
    (nodes : List (NodeId × Bytes)) (v : View) :
    ∃ p, primary (with_view (add_nodes (init n cert st g) nodes) v) = some p ∧
      p < (add_nodes (init n cert st g) nodes).configuration.size ∧
      p = to_size_t v % (add_nodes (init n cert st g) nodes).configuration.size ∧
      (0 ≤ v ∧ v < 2 ^ 64 →
        (p : Int) = v % ((add_nodes (init n cert st g) nodes).configuration.size : Int)) ∧
      ((∀ k, k ∈ (add_nodes (init n cert st g) nodes).configuration.keys ↔
          k < (add_nodes (init n cert st g) nodes).configuration.size) →
        p ∈ (add_nodes (init n cert st g) nodes).configuration.keys) := by
  have hpos : 0 < (add_nodes (init n cert st g) nodes).configuration.size :=
    size_pos_add_nodes nodes _ (size_pos_init n cert st g)
  have hlt : to_size_t v % (add_nodes (init n cert st g) nodes).configuration.size
      < (add_nodes (init n cert st g) nodes).configuration.size := Nat.mod_lt _ hpos
  refine ⟨_, primary_of_size_pos (with_view _ v) hpos, hlt, rfl, ?_, ?_⟩
  · rintro ⟨h0, h1⟩
    rw [with_view_configuration, with_view_current_view, Int.natCast_mod,
      to_size_t_of_nonneg v h0 h1]
  · intro hk
    exact (hk _).mpr hlt

/-- C1 (amended) at a concrete input: nodes 0, 1, 2 in view 5 give primary 2,
which is a key. -/
theorem C1_primary_total_below_size_witness :
    ∃ p, primary (with_view (add_nodes (init 0 [] () ()) [(1, []), (2, [])]) 5) = some p ∧
      p ∈ (add_nodes (init 0 [] () ()) [(1, []), (2, [])]).configuration.keys := by
  obtain ⟨p, hp, _, _, _, hk⟩ :=
    C1_primary_total_below_size 0 [] () () [(1, []), (2, [])] 5
  refine ⟨p, hp, hk ?_⟩
  intro k
  have hkeys : (add_nodes (init 0 ([] : Bytes) () ()) [(1, []), (2, [])]).configuration.keys
      = [0, 1, 2] := by decide
  have hsize : (add_nodes (init 0 ([] : Bytes) () ()) [(1, []), (2, [])]).configuration.size
      = 3 := by decide
  rw [hkeys, hsize]
  simp only [List.mem_cons, List.mem_singleton, List.not_mem_nil, or_false]
  have harith : ∀ j : Nat, (j = 0 ∨ j = 1 ∨ j = 2) ↔ j < 3 := by omega
  exact harith k

/-- C2, as stated, fails: a state machine constructed for node 1 alone has
`primary() = 0`, not 1, and `is_primary()` is false. -/
theorem C2_single_node_not_primary :
    ¬ (is_primary (with_view (init 1 [] () ()) 0) = some true ∧
        primary (with_view (init 1 [] () ()) 0) = some 1) := by
  decide

/-- C2 (amended): for every NodeId `n` and every view value, a state machine
constructed with `my_node_id = n` and no further `add_node` calls has the
single key `n` in its configuration, `primary() = 0`, and `is_primary()` true
exactly when `n = 0`. -/
theorem C2_single_node_primary_zero (n : NodeId) (cert : Bytes) (st : σ) (g : γ)
    (v : View) :
    (with_view (init n cert st g) v).configuration.keys = [n] ∧
    primary (with_view (init n cert st g) v) = some 0 ∧
    is_primary (with_view (init n cert st g) v) = some (decide (n = 0)) := by
  have hp : primary (with_view (init n cert st g) v) = some 0 := by
    rw [primary_of_size_pos (with_view (init n cert st g) v) (size_pos_init n cert st g)]
    show some (to_size_t v % 1) = some 0
    rw [Nat.mod_one]
  refine ⟨rfl, hp, ?_⟩
  unfold is_primary
  rw [hp]
  rfl

/-! ### `receive_request` before the network is open -/

theorem StateMachine.receive_request_not_open (ssm : IStartupStateMachine σ)
    (gch : IGlobalCommitHandler γ) (s : StateMachine σ γ) (request : RequestMessage)
    (h : s.is_network_open = false) :
    receive_request ssm gch s request =
      (Except.ok (),
        { s with
          startup_state_machine := (ssm.receive_request s.startup_state_machine request).2
          global_commit_handler :=
            gch.perform_global_commit s.global_commit_handler
              (ssm.receive_request s.startup_state_machine request).1 s.current_view
          last_good_version := (ssm.receive_request s.startup_state_machine request).1
          calls := s.calls ++
            [HandlerCall.startup_receive_request request,
             HandlerCall.perform_global_commit
               (ssm.receive_request s.startup_state_machine request).1 s.current_view] }) := by
  unfold receive_request
  rw [h]
  rfl

theorem StateMachine.committed_versions_eq (ssm : IStartupStateMachine σ)
    (gch : IGlobalCommitHandler γ) (requests : List RequestMessage)
    (s : StateMachine σ γ) (h : s.is_network_open = false) :
    committed_versions ssm gch s requests =
      startup_versions ssm s.startup_state_machine requests := by
  induction requests generalizing s with
  | nil => rfl
  | cons request rest ih =>
    have hs := receive_request_not_open ssm gch s request h
    have hopen : (receive_request ssm gch s request).2.is_network_open = false := by
      rw [hs]
      exact h
    have hst : (receive_request ssm gch s request).2.startup_state_machine =
        (ssm.receive_request s.startup_state_machine request).2 := by
      rw [hs]
    have hv : get_last_committed_version (receive_request ssm gch s request).2 =
        (ssm.receive_request s.startup_state_machine request).1 := by
      rw [hs]
      rfl
    show get_last_committed_version (receive_request ssm gch s request).2 ::
        committed_versions ssm gch (receive_request ssm gch s request).2 rest =
      (ssm.receive_request s.startup_state_machine request).1 ::
        startup_versions ssm (ssm.receive_request s.startup_state_machine request).2 rest
    rw [ih _ hopen, hst, hv]

/-- C3: in every state in which the network is not open, `receive_request`
returns normally; it calls the startup handler once with the request, then
`perform_global_commit` once with the version the startup handler returned and
the current view, and makes no other handler call; afterwards
`get_last_committed_version()` is that returned version.  The view, the
configuration and the open flag are as before. -/
theorem C3_receive_request_startup_path (ssm : IStartupStateMachine σ)
    (gch : IGlobalCommitHandler γ) (s : StateMachine σ γ) (request : RequestMessage)
    (h : s.is_network_open = false) :
    (receive_request ssm gch s request).1 = Except.ok () ∧
    (receive_request ssm gch s request).2.calls = s.calls ++
      [HandlerCall.startup_receive_request request,
       HandlerCall.perform_global_commit
         (ssm.receive_request s.startup_state_machine request).1 s.current_view] ∧
    (receive_request ssm gch s request).2.startup_state_machine =
      (ssm.receive_request s.startup_state_machine request).2 ∧
    (receive_request ssm gch s request).2.global_commit_handler =
      gch.perform_global_commit s.global_commit_handler
        (ssm.receive_request s.startup_state_machine request).1 s.current_view ∧
    get_last_committed_version (receive_request ssm gch s request).2 =
      (ssm.receive_request s.startup_state_machine request).1 ∧
    (receive_request ssm gch s request).2.current_view = s.current_view ∧
    (receive_request ssm gch s request).2.configuration = s.configuration ∧
    (receive_request ssm gch s request).2.is_network_open = false := by
  rw [receive_request_not_open ssm gch s request h]
  exact ⟨rfl, rfl, rfl, rfl, rfl, rfl, rfl, h⟩

/-- C3 at a concrete input: a fresh state machine with the counting startup
handler receives one request, which lands at version 1. -/
theorem C3_receive_request_startup_path_witness :
    (init 0 [] (0 : Int) ([] : List (Version × View))).is_network_open = false ∧
    (receive_request counting_startup recording_commit (init 0 [] 0 []) [7]).1
      = Except.ok () ∧
    (receive_request counting_startup recording_commit (init 0 [] 0 []) [7]).2.calls =
      [HandlerCall.startup_receive_request [7], HandlerCall.perform_global_commit 1 0] ∧
    get_last_committed_version
      (receive_request counting_startup recording_commit (init 0 [] 0 []) [7]).2 = 1 := by
  have h := C3_receive_request_startup_path counting_startup recording_commit
    (init 0 [] 0 []) [7] rfl
  exact ⟨rfl, h.1, h.2.1, h.2.2.2.2.1⟩

/-- C4, as stated, fails: with a startup handler that reports versions 2 and
then 1, `get_last_committed_version()` goes 0, 2, 1 over two requests. -/
theorem C4_committed_version_decreases :
    committed_versions countdown_startup recording_commit (init 0 [] 2 []) [[], []]
      = [2, 1] ∧
    ¬ List.Chain' (· ≤ ·)
      (get_last_committed_version (init 0 [] (2 : Int) ([] : List (Version × View))) ::
        committed_versions countdown_startup recording_commit (init 0 [] 2 []) [[], []]) := by
  have hl : committed_versions countdown_startup recording_commit (init 0 [] 2 []) [[], []]
      = [2, 1] := by decide
  have h0 : get_last_committed_version
      (init 0 [] (2 : Int) ([] : List (Version × View))) = 0 := rfl
  refine ⟨hl, ?_⟩
  rw [hl, h0]
  intro hc
  have h21 : (2 : Int) ≤ 1 := (List.chain'_cons.mp (List.chain'_cons.mp hc).2).1
  omega

/-- C4 (amended): for every sequence of `receive_request` calls made on a
freshly constructed state machine (the network is not open), the value
`get_last_committed_version()` shows after each call is the version the startup
handler returned for that call; starting from 0 at construction, it never
decreases from one call to the next when the versions the startup handler
returns never decrease and are not below 0. -/
theorem C4_committed_versions_follow_startup (ssm : IStartupStateMachine σ)
    (gch : IGlobalCommitHandler γ) (n : NodeId) (cert : Bytes) (st : σ) (g : γ)
    (requests : List RequestMessage) :
    get_last_committed_version (init n cert st g) = 0 ∧
    committed_versions ssm gch (init n cert st g) requests =
      startup_versions ssm st requests ∧
    (List.Chain' (· ≤ ·) (0 :: startup_versions ssm st requests) →
      List.Chain' (· ≤ ·)
        (get_last_committed_version (init n cert st g) ::
          committed_versions ssm gch (init n cert st g) requests)) := by
  have heq : committed_versions ssm gch (init n cert st g) requests =
      startup_versions ssm st requests :=
    committed_versions_eq ssm gch requests (init n cert st g) rfl
  refine ⟨rfl, heq, ?_⟩
  intro hc
  rw [heq]
  exact hc

/-- C4 (amended) at a concrete input: with the counting startup handler three
requests show the versions 1, 2, 3. -/
theorem C4_committed_versions_follow_startup_witness :
    List.Chain' (· ≤ ·)
      (get_last_committed_version (init 0 [] (0 : Int) ([] : List (Version × View))) ::
        committed_versions counting_startup recording_commit (init 0 [] 0 [])
          [[], [1], [2]]) :=
  (C4_committed_versions_follow_startup counting_startup recording_commit 0 [] 0 []
    [[], [1], [2]]).2.2
    (by
      have hl : startup_versions counting_startup 0 [[], [1], [2]] = [1, 2, 3] := by decide
      rw [hl]
      simp)

/-! ### `add_node` on a key that is present -/

/-- C5, as stated, fails: the configuration holds node 1 with certificate
`[1]`; after `add_node(1, [2])` the replica under 1 still carries `[1]`. -/
theorem C5_add_node_keeps_certificate :
    (init 1 [1] () ()).configuration.find 1 = some ⟨1, [1]⟩ ∧
    ¬ (((add_node (init 1 [1] () ()) 1 [2]).configuration.find 1).map Replica.cert
        = some [2]) := by
  decide

/-- C5 (amended): for every configuration that already contains NodeId `n`
with a replica `r`, `add_node(n, c2)` returns normally and leaves the
configuration as it was: the same keys, and the replica stored under `n` is
still `r`, with the certificate it had.  No other member changes. -/
theorem C5_add_node_existing_is_kept (s : StateMachine σ γ) (n : NodeId)
    (r : Replica) (c2 : Bytes) (h : s.configuration.find n = some r) :
    (add_node s n c2).configuration.keys = s.configuration.keys ∧
    (add_node s n c2).configuration.find n = some r ∧
    ((add_node s n c2).configuration.find n).map Replica.cert = some r.cert ∧
    add_node s n c2 = s := by
  have hc : s.configuration.emplace n ⟨n, c2⟩ = s.configuration := by
    unfold Configuration.emplace
    rw [h]
    rfl
  have hs : add_node s n c2 = s := by
    unfold add_node
    rw [hc]
  rw [hs, h]
  exact ⟨rfl, rfl, rfl, rfl⟩

/-- C5 (amended) at a concrete input: node 1 keeps certificate `[1]`. -/
theorem C5_add_node_existing_is_kept_witness :
    (init 1 [1] () ()).configuration.find 1 = some ⟨1, [1]⟩ ∧
    ((add_node (init 1 [1] () ()) 1 [2]).configuration.find 1).map Replica.cert
      = some [1] :=
  ⟨rfl, (C5_add_node_existing_is_kept (init 1 [1] () ()) 1 ⟨1, [1]⟩ [2] rfl).2.2.1⟩

/-! ### States reachable through the public operations -/

theorem StateMachine.step_preserves (ssm : IStartupStateMachine σ)
    (gch : IGlobalCommitHandler γ) (s : StateMachine σ γ) (op : Op)
    (hview : s.current_view = 0) (hopen : s.is_network_open = false)
    (hmem : s.my_node_id ∈ s.configuration.keys) :
    (step ssm gch s op).current_view = 0 ∧
    (step ssm gch s op).is_network_open = false ∧
    (step ssm gch s op).my_node_id = s.my_node_id ∧
    (step ssm gch s op).my_node_id ∈ (step ssm gch s op).configuration.keys := by
  cases op with
  | receive_request request =>
    show (receive_request ssm gch s request).2.current_view = 0 ∧
      (receive_request ssm gch s request).2.is_network_open = false ∧
      (receive_request ssm gch s request).2.my_node_id = s.my_node_id ∧
      (receive_request ssm gch s request).2.my_node_id ∈
        (receive_request ssm gch s request).2.configuration.keys
    rw [receive_request_not_open ssm gch s request hopen]
    exact ⟨hview, hopen, rfl, hmem⟩
  | add_node node_id cert =>
    refine ⟨hview, hopen, rfl, ?_⟩
    show s.my_node_id ∈ (s.configuration.emplace node_id ⟨node_id, cert⟩).keys
    rw [Configuration.mem_keys_emplace]
    exact Or.inr hmem
  | is_primary => exact ⟨hview, hopen, rfl, hmem⟩
  | primary => exact ⟨hview, hopen, rfl, hmem⟩
  | view => exact ⟨hview, hopen, rfl, hmem⟩
  | get_view_for_version version => exact ⟨hview, hopen, rfl, hmem⟩
  | get_last_committed_version => exact ⟨hview, hopen, rfl, hmem⟩

theorem StateMachine.exec_preserves (ssm : IStartupStateMachine σ)
    (gch : IGlobalCommitHandler γ) (ops : List Op) (s : StateMachine σ γ)
    (hview : s.current_view = 0) (hopen : s.is_network_open = false)
    (hmem : s.my_node_id ∈ s.configuration.keys) :
    (exec ssm gch s ops).current_view = 0 ∧
    (exec ssm gch s ops).is_network_open = false ∧
    (exec ssm gch s ops).my_node_id = s.my_node_id ∧
    (exec ssm gch s ops).my_node_id ∈ (exec ssm gch s ops).configuration.keys := by
  induction ops generalizing s with
  | nil => exact ⟨hview, hopen, rfl, hmem⟩
  | cons op rest ih =>
    obtain ⟨h1, h2, h3, h4⟩ := step_preserves ssm gch s op hview hopen hmem
    obtain ⟨k1, k2, k3, k4⟩ := ih (step ssm gch s op) h1 h2 h4
    exact ⟨k1, k2, k3.trans h3, k4⟩

theorem StateMachine.init_invariant (n : NodeId) (cert : Bytes) (st : σ) (g : γ) :
    (init n cert st g).current_view = 0 ∧
    (init n cert st g).is_network_open = false ∧
    (init n cert st g).my_node_id = n ∧
    (init n cert st g).my_node_id ∈ (init n cert st g).configuration.keys := by
  refine ⟨rfl, rfl, rfl, ?_⟩
  show n ∈ Configuration.keys [(n, ⟨n, cert⟩)]
  simp [Configuration.keys]

theorem Configuration.size_pos_of_mem_keys (c : Configuration) (k : NodeId)
    (h : k ∈ c.keys) : 0 < c.size := by
  cases c with
  | nil => simp [keys] at h
  | cons e rest => simp [size]

/-- C6: in every state reached from the constructor by any sequence of public
operations, the configuration is not empty and has `my_node_id` (the id given
to the constructor) among its keys; `primary()` has a value, the modulus is not
zero, and the value is `current_view mod |configuration|`. -/
theorem C6_configuration_never_empty (ssm : IStartupStateMachine σ)
    (gch : IGlobalCommitHandler γ) (n : NodeId) (cert : Bytes) (st : σ) (g : γ)
    (ops : List Op) :
    (exec ssm gch (init n cert st g) ops).configuration ≠ [] ∧
    (exec ssm gch (init n cert st g) ops).configuration.size ≠ 0 ∧
    (exec ssm gch (init n cert st g) ops).my_node_id = n ∧
    n ∈ (exec ssm gch (init n cert st g) ops).configuration.keys ∧
    ∃ p, primary (exec ssm gch (init n cert st g) ops) = some p ∧
      (p : Int) = (exec ssm gch (init n cert st g) ops).current_view %
        ((exec ssm gch (init n cert st g) ops).configuration.size : Int) := by
  obtain ⟨i1, i2, _, i4⟩ := init_invariant n cert st g
  obtain ⟨h1, _, h3, h4⟩ := exec_preserves ssm gch ops (init n cert st g) i1 i2 i4
  have h3' : (exec ssm gch (init n cert st g) ops).my_node_id = n := h3
  have hpos := Configuration.size_pos_of_mem_keys _ _ h4
  have h4' : n ∈ (exec ssm gch (init n cert st g) ops).configuration.keys := by
    rw [h3'] at h4
    exact h4
  refine ⟨?_, by omega, h3', h4', _, primary_of_size_pos _ hpos, ?_⟩
  · intro hnil
    rw [hnil] at hpos
    exact Nat.lt_irrefl 0 hpos
  · rw [Int.natCast_mod, h1]
    rfl

/-! ### `receive_request` once the network is open -/

end aft

namespace ccf

open Snapshotter

/-! ## Facts about `Snapshotter` -/

theorem sub64_of_le (a b : Nat) (hle : b ≤ a) (hb : a < 2 ^ 64) :
    sub64 a b = a - b := by
  unfold sub64
  have h0 : (0 : Int) ≤ (a : Int) - (b : Int) := by omega
  have h1 : (a : Int) - (b : Int) < 2 ^ 64 := by omega
  rw [Int.emod_eq_of_lt h0 h1]
  omega

theorem Snapshotter.snapshot_below (network : NetworkState) (s : Snapshotter)
    (idx : Index) (h : idx < s.last_snapshot_idx) :
    snapshot network s idx = (Except.error ⟨idx, s.last_snapshot_idx⟩, s) := by
  unfold snapshot
  rw [if_pos (Nat.not_le.mpr h)]

theorem Snapshotter.snapshot_schedule (network : NetworkState) (s : Snapshotter)
    (idx : Index) (hle : s.last_snapshot_idx ≤ idx)
    (hgt : sub64 idx s.last_snapshot_idx > s.snapshot_interval) :
    snapshot network s idx =
      (Except.ok (),
        { (get_execution_thread s).2 with
          thread_messaging :=
            (get_execution_thread s).2.thread_messaging.add_task
              (get_execution_thread s).1 ⟨network.snapshot idx⟩ }) := by
  unfold snapshot
  rw [if_neg (not_not.mpr hle), if_pos hgt]

theorem Snapshotter.snapshot_skip (network : NetworkState) (s : Snapshotter)
    (idx : Index) (hle : s.last_snapshot_idx ≤ idx)
    (hgt : ¬ sub64 idx s.last_snapshot_idx > s.snapshot_interval) :
    snapshot network s idx = (Except.ok (), s) := by
  unfold snapshot
  rw [if_neg (not_not.mpr hle), if_neg hgt]

theorem Snapshotter.get_execution_thread_frame (s : Snapshotter) :
    (get_execution_thread s).2.last_snapshot_idx = s.last_snapshot_idx ∧
    (get_execution_thread s).2.thread_messaging = s.thread_messaging ∧
    (get_execution_thread s).2.to_host = s.to_host ∧
    (get_execution_thread s).2.snapshot_interval = s.snapshot_interval ∧
    (get_execution_thread s).2.snapshot_evidence = s.snapshot_evidence ∧
    (get_execution_thread s).2.events = s.events := by
  unfold get_execution_thread
  split <;> exact ⟨rfl, rfl, rfl, rfl, rfl, rfl⟩

/-! ## Claims about `Snapshotter` -/

/-- C8: for every snapshotter state and every index, `snapshot(idx)` ends in
the assertion failure exactly when `idx < last_snapshot_idx` (and then changes
nothing); for `idx >= last_snapshot_idx` it returns normally, and the 64-bit
difference `idx - last_snapshot_idx` it computes is the true difference. -/
theorem C8_snapshot_fatal_iff_below (network : NetworkState) (s : Snapshotter)
    (idx : Index) :
    ((∃ e, (snapshot network s idx).1 = Except.error e) ↔ idx < s.last_snapshot_idx) ∧
    (idx < s.last_snapshot_idx →
      snapshot network s idx = (Except.error ⟨idx, s.last_snapshot_idx⟩, s)) ∧
    (idx ≥ s.last_snapshot_idx → (snapshot network s idx).1 = Except.ok ()) ∧
    (idx ≥ s.last_snapshot_idx → idx < 2 ^ 64 →
      sub64 idx s.last_snapshot_idx = idx - s.last_snapshot_idx ∧
      ((sub64 idx s.last_snapshot_idx : Nat) : Int) = (idx : Int) - (s.last_snapshot_idx : Int)) := by
  have hok : idx ≥ s.last_snapshot_idx → (snapshot network s idx).1 = Except.ok () := by
    intro hge
    by_cases hgt : sub64 idx s.last_snapshot_idx > s.snapshot_interval
    · rw [snapshot_schedule network s idx hge hgt]
    · rw [snapshot_skip network s idx hge hgt]
  refine ⟨⟨?_, ?_⟩, snapshot_below network s idx, hok, ?_⟩
  · rintro ⟨e, he⟩
    by_contra hnot
    rw [hok (Nat.le_of_not_lt hnot)] at he
    cases he
  · intro hlt
    exact ⟨_, by rw [snapshot_below network s idx hlt]⟩
  · intro hge hb
    have hsub := sub64_of_le idx s.last_snapshot_idx hge hb
    refine ⟨hsub, ?_⟩
    rw [hsub]
    exact Int.ofNat_sub hge

/-- C8 at concrete inputs: with `last_snapshot_idx = 5`, `snapshot(3)` fails
and `snapshot(9)` returns, the difference being 4. -/
theorem C8_snapshot_fatal_iff_below_witness :
    snapshot sample_network { init 2 ⟨1, []⟩ with last_snapshot_idx := 5 } 3 =
      (Except.error ⟨3, 5⟩, { init 2 ⟨1, []⟩ with last_snapshot_idx := 5 }) ∧
    (snapshot sample_network { init 2 ⟨1, []⟩ with last_snapshot_idx := 5 } 9).1
      = Except.ok () ∧
    sub64 9 5 = 4 :=
  ⟨(C8_snapshot_fatal_iff_below sample_network
      { init 2 ⟨1, []⟩ with last_snapshot_idx := 5 } 3).2.1 (by decide),
   (C8_snapshot_fatal_iff_below sample_network
      { init 2 ⟨1, []⟩ with last_snapshot_idx := 5 } 9).2.2.1 (by decide),
   ((C8_snapshot_fatal_iff_below sample_network
      { init 2 ⟨1, []⟩ with last_snapshot_idx := 5 } 9).2.2.2 (by decide) (by decide)).1⟩

/-- C9: for every `idx >= last_snapshot_idx` (a 64-bit value), `snapshot(idx)`
returns normally and leaves `last_snapshot_idx`, the messages to the host and
the evidence table as they were.  When `idx - last_snapshot_idx` exceeds
`snapshot_interval` it adds exactly one job to the waiting jobs, carrying the
store snapshot at version `idx`, on the context `get_execution_thread()`
names; otherwise it changes nothing at all, so a second such call in a row also
leaves the waiting jobs as they were. -/
theorem C9_snapshot_schedules_one_job (network : NetworkState) (s : Snapshotter)
    (idx : Index) (hge : idx ≥ s.last_snapshot_idx) (hb : idx < 2 ^ 64) :
    (snapshot network s idx).1 = Except.ok () ∧
    (snapshot network s idx).2.last_snapshot_idx = s.last_snapshot_idx ∧
    (snapshot network s idx).2.to_host = s.to_host ∧
    (snapshot network s idx).2.snapshot_evidence = s.snapshot_evidence ∧
    (idx - s.last_snapshot_idx > s.snapshot_interval →
      pending (snapshot network s idx).2 =
        pending s ++ [((get_execution_thread s).1, ⟨network.snapshot idx⟩)] ∧
      (network.snapshot idx).version = idx) ∧
    (idx - s.last_snapshot_idx ≤ s.snapshot_interval →
      (snapshot network s idx).2 = s ∧
      ∀ idx2 : Index, idx2 ≥ s.last_snapshot_idx → idx2 < 2 ^ 64 →
        idx2 - s.last_snapshot_idx ≤ s.snapshot_interval →
        pending (snapshot network (snapshot network s idx).2 idx2).2 = pending s) := by
  have hsub := sub64_of_le idx s.last_snapshot_idx hge hb
  obtain ⟨f1, f2, f3, _, f5, _⟩ := get_execution_thread_frame s
  by_cases hgt : sub64 idx s.last_snapshot_idx > s.snapshot_interval
  · rw [snapshot_schedule network s idx hge hgt]
    refine ⟨rfl, f1, f3, f5, ?_, ?_⟩
    · intro _
      refine ⟨?_, rfl⟩
      show ((get_execution_thread s).2.thread_messaging.add_task _ _).tasks = _
      rw [f2]
      rfl
    · intro hle
      rw [hsub] at hgt
      exact absurd hgt (Nat.not_lt.mpr hle)
  · rw [snapshot_skip network s idx hge hgt]
    refine ⟨rfl, rfl, rfl, rfl, ?_, ?_⟩
    · intro hlt
      rw [hsub] at hgt
      exact absurd hlt hgt
    · intro _
      refine ⟨rfl, ?_⟩
      intro idx2 hge2 hb2 hle2
      have hsub2 := sub64_of_le idx2 s.last_snapshot_idx hge2 hb2
      have hgt2 : ¬ sub64 idx2 s.last_snapshot_idx > s.snapshot_interval := by
        rw [hsub2]
        exact Nat.not_lt.mpr hle2
      show pending (snapshot network s idx2).2 = pending s
      rw [snapshot_skip network s idx2 hge2 hgt2]

/-- C9 at concrete inputs: interval 2, last snapshot at 0, three contexts:
`snapshot(3)` queues one job for version 3 on context 1; `snapshot(2)` and then
`snapshot(1)` queue nothing. -/
theorem C9_snapshot_schedules_one_job_witness :
    pending (snapshot sample_network (init 2 ⟨3, []⟩) 3).2 =
      [(1, ⟨sample_network.snapshot 3⟩)] ∧
    pending (snapshot sample_network (snapshot sample_network (init 2 ⟨3, []⟩) 2).2 1).2
      = [] :=
  ⟨((C9_snapshot_schedules_one_job sample_network (init 2 ⟨3, []⟩) 3
      (by decide) (by decide)).2.2.2.2.1 (by decide)).1,
   ((C9_snapshot_schedules_one_job sample_network (init 2 ⟨3, []⟩) 2
      (by decide) (by decide)).2.2.2.2.2 (by decide)).2 1 (by decide) (by decide)
      (by decide)⟩

/-- C10: a checkpoint job whose evidence commit returns anything other than
`OK` sends no message to the host and leaves `last_snapshot_idx` (and the
evidence table and the waiting jobs) unchanged; a job whose commit returns `OK`
sends exactly one message, the snapshot's version with the serialised bytes,
and sets `last_snapshot_idx` to the snapshot's version. -/
theorem C10_snapshot_job_commit_gate (network : NetworkState) (s : Snapshotter)
    (snap : AbstractSnapshot) (rc : CommitSuccess) :
    (rc ≠ CommitSuccess.OK →
      (snapshot_ network s snap rc).to_host = s.to_host ∧
      (snapshot_ network s snap rc).last_snapshot_idx = s.last_snapshot_idx ∧
      (snapshot_ network s snap rc).snapshot_evidence = s.snapshot_evidence ∧
      (snapshot_ network s snap rc).thread_messaging = s.thread_messaging) ∧
    (rc = CommitSuccess.OK →
      (snapshot_ network s snap rc).to_host =
        s.to_host ++ [(snap.version, network.serialise_snapshot snap)] ∧
      (snapshot_ network s snap rc).last_snapshot_idx = snap.version ∧
      (snapshot_ network s snap rc).thread_messaging = s.thread_messaging) := by
  constructor
  · intro hrc
    unfold snapshot_
    simp only []
    rw [if_pos hrc]
    exact ⟨rfl, rfl, rfl, rfl⟩
  · intro hrc
    unfold snapshot_
    simp only []
    rw [if_neg (not_not.mpr hrc)]
    exact ⟨rfl, rfl, rfl⟩

/-- C10 at concrete inputs: a job for version 3 after a snapshot at 1; a
conflicting commit sends nothing, a successful one sends `(3, bytes)`. -/
theorem C10_snapshot_job_commit_gate_witness :
    (snapshot_ sample_network { init 2 ⟨1, []⟩ with last_snapshot_idx := 1 }
      (sample_network.snapshot 3) CommitSuccess.CONFLICT).to_host = [] ∧
    (snapshot_ sample_network { init 2 ⟨1, []⟩ with last_snapshot_idx := 1 }
      (sample_network.snapshot 3) CommitSuccess.CONFLICT).last_snapshot_idx = 1 ∧
    (snapshot_ sample_network { init 2 ⟨1, []⟩ with last_snapshot_idx := 1 }
      (sample_network.snapshot 3) CommitSuccess.OK).to_host = [(3, [3, 0, 0, 0])] ∧
    (snapshot_ sample_network { init 2 ⟨1, []⟩ with last_snapshot_idx := 1 }
      (sample_network.snapshot 3) CommitSuccess.OK).last_snapshot_idx = 3 :=
  have hbad := (C10_snapshot_job_commit_gate sample_network
    { init 2 ⟨1, []⟩ with last_snapshot_idx := 1 } (sample_network.snapshot 3)
    CommitSuccess.CONFLICT).1 (by decide)
  have hgood := (C10_snapshot_job_commit_gate sample_network
    { init 2 ⟨1, []⟩ with last_snapshot_idx := 1 } (sample_network.snapshot 3)
    CommitSuccess.OK).2 rfl
  ⟨hbad.1, hbad.2.1, hgood.1, hgood.2.1⟩

end ccf

namespace aft

open StateMachine

/-! ### What no public operation writes -/

theorem StateMachine.step_frame {σ γ : Type} (ssm : IStartupStateMachine σ)
    (gch : IGlobalCommitHandler γ) (s : StateMachine σ γ) (op : Op) :
    (step ssm gch s op).current_view = s.current_view ∧
    (step ssm gch s op).is_network_open = s.is_network_open ∧
    (step ssm gch s op).my_node_id = s.my_node_id := by
  cases op with
  | receive_request request =>
    show (receive_request ssm gch s request).2.current_view = s.current_view ∧
      (receive_request ssm gch s request).2.is_network_open = s.is_network_open ∧
      (receive_request ssm gch s request).2.my_node_id = s.my_node_id
    cases hopen : s.is_network_open with
    | false =>
      rw [receive_request_not_open ssm gch s request hopen]
      exact ⟨rfl, hopen, rfl⟩
    | true =>
      unfold receive_request
      rw [hopen]
      exact ⟨rfl, hopen, rfl⟩
  | add_node node_id cert => exact ⟨rfl, rfl, rfl⟩
  | is_primary => exact ⟨rfl, rfl, rfl⟩
  | primary => exact ⟨rfl, rfl, rfl⟩
  | view => exact ⟨rfl, rfl, rfl⟩
  | get_view_for_version version => exact ⟨rfl, rfl, rfl⟩
  | get_last_committed_version => exact ⟨rfl, rfl, rfl⟩

/-- C16: no public operation writes `current_view`, `is_network_open` or
`my_node_id`, in any state.  Hence in every state reached from the constructor
by public operations `view()` is 0 and the network is not open, `primary()` is
0 whatever the configuration, `is_primary()` holds exactly when the node's id
is 0, and `receive_request` returns normally by its startup branch (the call
record grows by the startup call and the global commit), never reaching the
"Not Implemented" statement. -/
theorem C16_view_and_open_flag_never_written {σ γ : Type}
    (ssm : IStartupStateMachine σ) (gch : IGlobalCommitHandler γ) (n : NodeId)
    (cert : Bytes) (st : σ) (g : γ) (ops : List Op) :
    (∀ (s : StateMachine σ γ) (op : Op),
      (step ssm gch s op).current_view = s.current_view ∧
      (step ssm gch s op).is_network_open = s.is_network_open) ∧
    view (exec ssm gch (init n cert st g) ops) = 0 ∧
    (exec ssm gch (init n cert st g) ops).is_network_open = false ∧
    primary (exec ssm gch (init n cert st g) ops) = some 0 ∧
    is_primary (exec ssm gch (init n cert st g) ops) = some (decide (n = 0)) ∧
    ∀ request : RequestMessage,
      (receive_request ssm gch (exec ssm gch (init n cert st g) ops) request).1
        = Except.ok () ∧
      (receive_request ssm gch (exec ssm gch (init n cert st g) ops) request).2.calls
        = (exec ssm gch (init n cert st g) ops).calls ++
          [HandlerCall.startup_receive_request request,
           HandlerCall.perform_global_commit
             (ssm.receive_request
               (exec ssm gch (init n cert st g) ops).startup_state_machine request).1
             (exec ssm gch (init n cert st g) ops).current_view] := by
  obtain ⟨i1, i2, _, i4⟩ := init_invariant n cert st g
  obtain ⟨h1, h2, h3, h4⟩ := exec_preserves ssm gch ops (init n cert st g) i1 i2 i4
  have h3' : (exec ssm gch (init n cert st g) ops).my_node_id = n := h3
  have hpos := Configuration.size_pos_of_mem_keys _ _ h4
  have hp : primary (exec ssm gch (init n cert st g) ops) = some 0 := by
    rw [primary_of_size_pos _ hpos, h1]
    rfl
  refine ⟨fun s op => ⟨(step_frame ssm gch s op).1, (step_frame ssm gch s op).2.1⟩,
    h1, h2, hp, ?_, ?_⟩
  · unfold is_primary
    rw [hp, h3']
    rfl
  · intro request
    rw [receive_request_not_open ssm gch _ request h2]
    exact ⟨rfl, rfl⟩

end aft

namespace ccf

open Snapshotter

/-! ### The context `get_execution_thread` names -/

theorem Snapshotter.get_execution_thread_range (s : Snapshotter)
    (h : s.thread_messaging.thread_count > 1) :
    1 ≤ (get_execution_thread s).1 ∧
    (get_execution_thread s).1 ≤ s.thread_messaging.thread_count ∧
    (get_execution_thread s).1 =
      s.generation_count % s.thread_messaging.thread_count + 1 := by
  unfold get_execution_thread
  rw [if_pos h]
  have hlt : s.generation_count % s.thread_messaging.thread_count
      < s.thread_messaging.thread_count := Nat.mod_lt _ (by omega)
  exact ⟨by simp, by simpa using hlt, rfl⟩

theorem Snapshotter.get_execution_thread_main (s : Snapshotter)
    (h : s.thread_messaging.thread_count ≤ 1) :
    get_execution_thread s = (MAIN_THREAD_ID, s) := by
  unfold get_execution_thread
  rw [if_neg (by omega)]

/-- C15, the code at its failing input: with three execution contexts,
numbered 0, 1, 2, the first three calls of `get_execution_thread` on a new
snapshotter return 1, 2 and 3, and 3 is not below `thread_count`: it names no
context.  The next calls repeat 1, 2, 3. -/
theorem C15_execution_thread_out_of_range :
    execution_threads (init 2 ⟨3, []⟩) 6 = [1, 2, 3, 1, 2, 3] ∧
    (get_execution_thread { init 2 ⟨3, []⟩ with generation_count := 2 }).1 = 3 ∧
    ¬ ((get_execution_thread { init 2 ⟨3, []⟩ with generation_count := 2 }).1
        < (init 2 ⟨3, []⟩).thread_messaging.thread_count) := by
  decide

end ccf

namespace ccf

open Snapshotter

/-! ### The trace of evidence commits and messages -/

/-- C12, the code at its failing input: with interval 2 and three contexts,
`snapshot(3)` queues a job on context 1 and `snapshot(4)` one on context 2, both
calls made with `idx >= last_snapshot_idx` (which is still 0); context 2 runs
first, so the indices sent are 4 then 3 and `last_snapshot_idx` goes 0, 0, 4,
3: neither sequence is non-decreasing. -/
theorem C12_jobs_complete_out_of_order :
    calls_meet_precondition sample_network (init 2 ⟨3, []⟩)
      [Action.snapshot 3, Action.snapshot 4, Action.run 2 CommitSuccess.OK,
       Action.run 1 CommitSuccess.OK] = true ∧
    pending (exec sample_network (init 2 ⟨3, []⟩)
      [Action.snapshot 3, Action.snapshot 4]) =
        [(1, ⟨sample_network.snapshot 3⟩), (2, ⟨sample_network.snapshot 4⟩)] ∧
    (exec sample_network (init 2 ⟨3, []⟩)
      [Action.snapshot 3, Action.snapshot 4, Action.run 2 CommitSuccess.OK,
       Action.run 1 CommitSuccess.OK]).to_host.map Prod.fst = [4, 3] ∧
    last_snapshot_idx_trace sample_network (init 2 ⟨3, []⟩)
      [Action.snapshot 3, Action.snapshot 4, Action.run 2 CommitSuccess.OK,
       Action.run 1 CommitSuccess.OK] = [0, 0, 4, 3] ∧
    ¬ (List.Chain' (· ≤ ·)
        ((exec sample_network (init 2 ⟨3, []⟩)
          [Action.snapshot 3, Action.snapshot 4, Action.run 2 CommitSuccess.OK,
           Action.run 1 CommitSuccess.OK]).to_host.map Prod.fst) ∨
      List.Chain' (· ≤ ·)
        ((init 2 ⟨3, []⟩).last_snapshot_idx ::
          last_snapshot_idx_trace sample_network (init 2 ⟨3, []⟩)
            [Action.snapshot 3, Action.snapshot 4, Action.run 2 CommitSuccess.OK,
             Action.run 1 CommitSuccess.OK])) := by
  have hsent : (exec sample_network (init 2 ⟨3, []⟩)
      [Action.snapshot 3, Action.snapshot 4, Action.run 2 CommitSuccess.OK,
       Action.run 1 CommitSuccess.OK]).to_host.map Prod.fst = [4, 3] := by decide
  have hlast : last_snapshot_idx_trace sample_network (init 2 ⟨3, []⟩)
      [Action.snapshot 3, Action.snapshot 4, Action.run 2 CommitSuccess.OK,
       Action.run 1 CommitSuccess.OK] = [0, 0, 4, 3] := by decide
  have h0 : (init 2 ⟨3, []⟩).last_snapshot_idx = 0 := rfl
  refine ⟨by decide, by decide, hsent, hlast, ?_⟩
  rw [hsent, hlast, h0]
  rintro (hc | hc)
  · have h43 : (4 : Nat) ≤ 3 := (List.chain'_cons.mp hc).1
    omega
  · have h43 : (4 : Nat) ≤ 3 :=
      (List.chain'_cons.mp (List.chain'_cons.mp (List.chain'_cons.mp
        (List.chain'_cons.mp hc).2).2).2).1
    omega

end ccf

namespace kv

open aft (Bytes)

open Store

/-! ## Facts about the store and its history -/

theorem Tables.replay_append (t : Tables) (a b : List Tx) :
    t.replay (a ++ b) = (t.replay a).replay b := by
  unfold Tables.replay
  rw [List.foldl_append]

theorem Tables.replay_signature_last (t : Tables) (txs : List Tx) (sig : Signature) :
    (t.replay (txs ++ [Tx.signature sig])).signatures = some sig := by
  rw [Tables.replay_append]
  rfl

theorem Tables.replay_without_signature (txs : List Tx) (t : Tables)
    (hnone : t.signatures = none)
    (h : ∀ tx ∈ txs, ∀ sig, tx ≠ Tx.signature sig) :
    (t.replay txs).signatures = none := by
  induction txs generalizing t with
  | nil => exact hnone
  | cons tx rest ih =>
    show ((t.apply tx).replay rest).signatures = none
    apply ih
    · cases tx with
      | put key value => exact hnone
      | signature sig => exact absurd rfl (h _ (List.mem_cons_self _ _) sig)
    · intro tx' hmem
      exact h tx' (List.mem_cons_of_mem _ hmem)

theorem MerkleTreeHistory.append_all_append (H : Bytes → Bytes) (t : MerkleTreeHistory)
    (a b : List Bytes) :
    t.append_all H (a ++ b) = (t.append_all H a).append_all H b := by
  unfold MerkleTreeHistory.append_all
  rw [List.foldl_append]

theorem MerkleTreeHistory.append_all_concat (H : Bytes → Bytes) (t : MerkleTreeHistory)
    (a : List Bytes) (x : Bytes) :
    t.append_all H (a ++ [x]) = (t.append_all H a).append H x := by
  rw [MerkleTreeHistory.append_all_append]
  rfl

theorem Store.run_append (enc : Encoding) (s : Store) (a b : List Op) :
    run enc s (a ++ b) = run enc (run enc s a) b := by
  unfold run
  rw [List.foldl_append]

theorem Store.commit_all_history (enc : Encoding) (txs : List Tx) (s : Store) :
    (commit_all enc s txs).history =
      s.history.append_all enc.Sha256Hash (txs.map (leaf enc)) := by
  induction txs generalizing s with
  | nil => rfl
  | cons tx rest ih =>
    show (commit_all enc (commit enc s tx) rest).history = _
    rw [ih]
    rfl

/-- What one operation of the source commits. -/
theorem Store.step_entries (enc : Encoding) (s : Store) (op : Op) :
    ∃ tx, step enc s op = commit enc s tx ∧
      (∀ sig, tx = Tx.signature sig →
        sig.tree = s.history.serialise ∧ sig.seqno = s.current_version + 1 ∧
        sig.root = s.get_replicated_state_root enc) := by
  cases op with
  | put key value =>
    refine ⟨Tx.put key value, rfl, ?_⟩
    intro sig h
    cases h
  | emit_signature =>
    refine ⟨_, rfl, ?_⟩
    intro sig h
    cases h
    exact ⟨rfl, rfl, rfl⟩

/-- The invariant of a store that started fresh: its history is the tree of the
leaves of all its transactions, and each signature record holds the mini-tree
of the transactions before it. -/
theorem Store.run_invariant (enc : Encoding) (ops : List Op) :
    (run enc fresh ops).base_version = 0 ∧
    (run enc fresh ops).base_tables = Tables.empty ∧
    (run enc fresh ops).entries.length = ops.length ∧
    (run enc fresh ops).history =
      MerkleTreeHistory.empty.append_all enc.Sha256Hash
        ((run enc fresh ops).entries.map (leaf enc)) ∧
    ∀ (i : Nat) (sig : Signature),
      (run enc fresh ops).entries[i]? = some (Tx.signature sig) →
      sig.tree =
        (MerkleTreeHistory.empty.append_all enc.Sha256Hash
          (((run enc fresh ops).entries.take i).map (leaf enc))).serialise ∧
      sig.seqno = i + 1 := by
  induction ops using List.reverseRecOn with
  | nil =>
    refine ⟨rfl, rfl, rfl, rfl, ?_⟩
    intro i sig h
    simp [run, fresh] at h
  | append_singleton ops op ih =>
    obtain ⟨h1, h2, h3, h4, h5⟩ := ih
    have hrun : run enc (run enc fresh ops) [op] = step enc (run enc fresh ops) op := rfl
    obtain ⟨tx, htx, hsig⟩ := step_entries enc (run enc fresh ops) op
    rw [run_append, hrun, htx]
    have hent : (commit enc (run enc fresh ops) tx).entries =
        (run enc fresh ops).entries ++ [tx] := rfl
    have hhist : (commit enc (run enc fresh ops) tx).history =
        (run enc fresh ops).history.append enc.Sha256Hash (leaf enc tx) := rfl
    refine ⟨h1, h2, ?_, ?_, ?_⟩
    · rw [hent, List.length_append, h3, List.length_append]
      rfl
    · rw [hhist, hent, List.map_append, h4]
      exact (MerkleTreeHistory.append_all_concat _ _ _ _).symm
    · intro i sig hi
      rw [hent] at hi ⊢
      by_cases hlt : i < (run enc fresh ops).entries.length
      · rw [List.getElem?_append_left hlt] at hi
        rw [List.take_append_of_le_length (Nat.le_of_lt hlt)]
        exact h5 i sig hi
      · have hge : (run enc fresh ops).entries.length ≤ i := Nat.le_of_not_lt hlt
        rw [List.getElem?_append_right hge] at hi
        rcases Nat.lt_or_ge (i - (run enc fresh ops).entries.length) 1 with h0 | h1'
        · have hi_eq : i = (run enc fresh ops).entries.length := by omega
          have hz : i - (run enc fresh ops).entries.length = 0 := by omega
          rw [hz] at hi
          simp only [List.getElem?_cons_zero, Option.some.injEq] at hi
          obtain ⟨k1, k2, _⟩ := hsig sig hi
          rw [hi_eq, List.take_left, ← h4]
          refine ⟨k1, ?_⟩
          rw [k2]
          show (run enc fresh ops).base_version + (run enc fresh ops).entries.length + 1 = _
          rw [h1]
          omega
        · have hnone : ([tx])[i - (run enc fresh ops).entries.length]? = none :=
            List.getElem?_eq_none (by simpa using h1')
          rw [hnone] at hi
          cases hi

theorem Store.run_take_entries (enc : Encoding) (ops : List Op) (V : Nat) :
    (run enc fresh (ops.take V)).entries = (run enc fresh ops).entries.take V := by
  have hsplit : run enc fresh ops = run enc (run enc fresh (ops.take V)) (ops.drop V) := by
    rw [← run_append, List.take_append_drop]
  have hlen := (run_invariant enc (ops.take V)).2.2.1
  have hpre : ∀ (rest : List Op) (s : Store),
      ∃ more, (run enc s rest).entries = s.entries ++ more := by
    intro rest
    induction rest with
    | nil => exact fun s => ⟨[], (List.append_nil _).symm⟩
    | cons op rest ih =>
      intro s
      obtain ⟨tx, htx, _⟩ := step_entries enc s op
      obtain ⟨more, hmore⟩ := ih (step enc s op)
      refine ⟨tx :: more, ?_⟩
      show (run enc (step enc s op) rest).entries = _
      rw [hmore, htx]
      show s.entries ++ [tx] ++ more = _
      rw [List.append_assoc]
      rfl
  obtain ⟨more, hmore⟩ := hpre (ops.drop V) (run enc fresh (ops.take V))
  have hall : (run enc fresh ops).entries.length = ops.length :=
    (run_invariant enc ops).2.2.1
  rw [hsplit, hmore] at hall
  rw [hsplit, hmore]
  generalize (run enc fresh (List.take V ops)).entries = first at hlen hall ⊢
  rw [List.length_take] at hlen
  rw [List.length_append] at hall
  by_cases hV : V ≤ ops.length
  · exact (List.take_left' (by omega)).symm
  · have hnil : more = [] := List.length_eq_zero.mp (by omega)
    rw [hnil, List.append_nil]
    exact (List.take_of_length_le (by omega)).symm

theorem Store.snapshot_eq (enc : Encoding) (s : Store) (V : Nat) (tx : Tx)
    (hbase : s.base_version = 0) (hV : 1 ≤ V) (htx : s.entries[V - 1]? = some tx) :
    snapshot enc s V =
      some ⟨V, s.base_tables.replay (s.entries.take V), leaf enc tx⟩ := by
  unfold snapshot
  rw [hbase, if_neg (by omega), Nat.sub_zero, List.get?_eq_getElem?, htx]
  rfl

theorem Store.deserialise_snapshot_some (enc : Encoding) (target : Store)
    (snap : Snapshot) (sig : Signature) (h : snap.tables.signatures = some sig) :
    deserialise_snapshot enc target snap =
      (DeserialiseSuccess.PASS,
        { base_version := snap.version
          base_tables := snap.tables
          entries := []
          history :=
            (MerkleTreeHistory.deserialise sig.tree).append enc.Sha256Hash
              snap.hash_at_snapshot }) := by
  unfold deserialise_snapshot
  rw [h]

theorem Store.deserialise_snapshot_none (enc : Encoding) (target : Store)
    (snap : Snapshot) (h : snap.tables.signatures = none) :
    deserialise_snapshot enc target snap = (DeserialiseSuccess.FAILED, target) := by
  unfold deserialise_snapshot
  rw [h]

theorem Store.take_at_signature (entries : List Tx) (V : Nat) (tx : Tx) (hV : 1 ≤ V)
    (htx : entries[V - 1]? = some tx) :
    entries.take V = entries.take (V - 1) ++ [tx] := by
  have hsucc : V = (V - 1) + 1 := by omega
  rw [hsucc, List.take_succ, Nat.add_sub_cancel, htx]
  rfl

/-! ## Claims about snapshots of the store -/

/-- C13: for every source store built from a fresh store by writes and
signatures, and every version `V >= 1`.  When the transaction at version `V` is
a signature record, the snapshot at `V` exists, deserialising it into a fresh
store returns `PASS`, the target is at version `V`, and its history root is the
source's root at `V`; when `V` is the source's current version the two roots
are equal and stay equal after any further transactions applied to both.  When
no signature record is at or before `V`, deserialising the snapshot at `V`
returns `FAILED` and leaves the target as it was. -/
theorem C13_snapshot_roundtrip (enc : Encoding) (ops : List Op) (V : Nat) :
    (∀ sig, 1 ≤ V → (run enc fresh ops).entries[V - 1]? = some (Tx.signature sig) →
      ∃ snap, snapshot enc (run enc fresh ops) V = some snap ∧
        (deserialise_snapshot enc fresh snap).1 = DeserialiseSuccess.PASS ∧
        (deserialise_snapshot enc fresh snap).2.current_version = V ∧
        get_replicated_state_root enc (deserialise_snapshot enc fresh snap).2 =
          get_replicated_state_root enc (run enc fresh (ops.take V)) ∧
        (V = (run enc fresh ops).current_version →
          ∀ txs : List Tx,
            get_replicated_state_root enc
                (commit_all enc (deserialise_snapshot enc fresh snap).2 txs) =
              get_replicated_state_root enc (commit_all enc (run enc fresh ops) txs))) ∧
    (1 ≤ V → V ≤ (run enc fresh ops).current_version →
      (∀ tx ∈ (run enc fresh ops).entries.take V, ∀ sig, tx ≠ Tx.signature sig) →
      ∃ snap, snapshot enc (run enc fresh ops) V = some snap ∧
        deserialise_snapshot enc fresh snap = (DeserialiseSuccess.FAILED, fresh)) := by
  obtain ⟨b0, b1, _, hhist, hsigs⟩ := run_invariant enc ops
  constructor
  · intro sig hV hsig
    have hsnap := snapshot_eq enc (run enc fresh ops) V (Tx.signature sig) b0 hV hsig
    have htake := take_at_signature (run enc fresh ops).entries V (Tx.signature sig) hV hsig
    have htables : ((run enc fresh ops).base_tables.replay
        ((run enc fresh ops).entries.take V)).signatures = some sig := by
      rw [htake]
      exact Tables.replay_signature_last _ _ _
    have hdes := deserialise_snapshot_some enc fresh
      ⟨V, (run enc fresh ops).base_tables.replay ((run enc fresh ops).entries.take V),
        leaf enc (Tx.signature sig)⟩ sig htables
    have htree := (hsigs (V - 1) sig hsig).1
    have htarget : (MerkleTreeHistory.deserialise sig.tree).append enc.Sha256Hash
        (leaf enc (Tx.signature sig)) =
        MerkleTreeHistory.empty.append_all enc.Sha256Hash
          (((run enc fresh ops).entries.take V).map (leaf enc)) := by
      rw [htree, htake, List.map_append, List.map_singleton,
        MerkleTreeHistory.append_all_concat]
      rfl
    have hsource : (run enc fresh (ops.take V)).history =
        MerkleTreeHistory.empty.append_all enc.Sha256Hash
          (((run enc fresh ops).entries.take V).map (leaf enc)) := by
      rw [(run_invariant enc (ops.take V)).2.2.2.1, run_take_entries]
    refine ⟨_, hsnap, ?_, ?_, ?_, ?_⟩
    · rw [hdes]
    · rw [hdes]
      show V + 0 = V
      omega
    · rw [hdes]
      show MerkleTreeHistory.get_root enc.Sha256Hash
          ((MerkleTreeHistory.deserialise sig.tree).append enc.Sha256Hash
            (leaf enc (Tx.signature sig))) =
        MerkleTreeHistory.get_root enc.Sha256Hash (run enc fresh (ops.take V)).history
      rw [htarget, hsource]
    · intro hcur txs
      have hall : (run enc fresh ops).entries.take V = (run enc fresh ops).entries := by
        apply List.take_of_length_le
        unfold current_version at hcur
        omega
      rw [hdes]
      unfold get_replicated_state_root
      rw [commit_all_history, commit_all_history]
      show MerkleTreeHistory.get_root enc.Sha256Hash
          (((MerkleTreeHistory.deserialise sig.tree).append enc.Sha256Hash
            (leaf enc (Tx.signature sig))).append_all enc.Sha256Hash _) = _
      rw [htarget, hall, ← hhist]
  · intro hV hle hnosig
    have hlt : V - 1 < (run enc fresh ops).entries.length := by
      unfold current_version at hle
      omega
    have htx : (run enc fresh ops).entries[V - 1]? =
        some ((run enc fresh ops).entries[V - 1]) := List.getElem?_eq_getElem hlt
    have hsnap := snapshot_eq enc (run enc fresh ops) V _ b0 hV htx
    refine ⟨_, hsnap, ?_⟩
    apply deserialise_snapshot_none
    show ((run enc fresh ops).base_tables.replay
      ((run enc fresh ops).entries.take V)).signatures = none
    rw [b1]
    exact Tables.replay_without_signature _ _ rfl hnosig

/-- C13 on the test's scenario: three writes, then a signature (at version 4).
The snapshot at version 3 is refused; the snapshot at version 4 passes, the
target's root is the source's, and it still is after one more write on both. -/
theorem C13_snapshot_roundtrip_witness :
    (∃ snap, snapshot sample_encoding test_source 3 = some snap ∧
      deserialise_snapshot sample_encoding fresh snap =
        (DeserialiseSuccess.FAILED, fresh)) ∧
    (∃ snap, snapshot sample_encoding test_source 4 = some snap ∧
      (deserialise_snapshot sample_encoding fresh snap).1 = DeserialiseSuccess.PASS ∧
      get_replicated_state_root sample_encoding
          (commit_all sample_encoding (deserialise_snapshot sample_encoding fresh snap).2
            []) =
        get_replicated_state_root sample_encoding test_source ∧
      get_replicated_state_root sample_encoding
          (commit_all sample_encoding (deserialise_snapshot sample_encoding fresh snap).2
            [Tx.put [4] [9]]) =
        get_replicated_state_root sample_encoding
          (commit_all sample_encoding test_source [Tx.put [4] [9]])) := by
  have h3 := (C13_snapshot_roundtrip sample_encoding
    [Op.put [1] [9], Op.put [2] [9], Op.put [3] [9], Op.emit_signature] 3).2
    (by decide) (by decide)
    (by
      intro tx htx sig
      have hl : List.take 3 (run sample_encoding fresh
          [Op.put [1] [9], Op.put [2] [9], Op.put [3] [9], Op.emit_signature]).entries =
          [Tx.put [1] [9], Tx.put [2] [9], Tx.put [3] [9]] := by decide
      rw [hl] at htx
      simp only [List.mem_cons, List.mem_singleton, List.not_mem_nil, or_false] at htx
      rcases htx with rfl | rfl | rfl <;> exact fun h => Tx.noConfusion h)
  have h4 := (C13_snapshot_roundtrip sample_encoding
    [Op.put [1] [9], Op.put [2] [9], Op.put [3] [9], Op.emit_signature] 4).1
    ⟨4, [4, 157], [(0, [3, 141]), (1, [4, 55])]⟩ (by decide) (by decide)
  obtain ⟨snap, hs, hpass, _, _, hroots⟩ := h4
  exact ⟨h3, snap, hs, hpass, hroots (by decide) [], hroots (by decide) [Tx.put [4] [9]]⟩

/-- C14: for every store, after `emit_signature` the signatures table holds a
record whose mini-tree rebuilds a history with the root the source had just
before the signature; appending to it the hash of the serialised signature (the
latest data handed to the consensus) gives the source's current
replicated-state root.  The same holds later on for every signature record in
the log of a store that started fresh: the tree rebuilt from the record at
position `i` has the source's root after `i` transactions, and with the hash of
the serialised signature appended, the root after `i + 1`. -/
theorem C14_tree_from_signature (enc : Encoding) (s : Store) (ops : List Op)
    (i : Nat) :
    (∃ sig, (emit_signature enc s).tables.signatures = some sig ∧
      (MerkleTreeHistory.deserialise sig.tree).get_root enc.Sha256Hash =
        get_replicated_state_root enc s ∧
      sig.root = get_replicated_state_root enc s ∧
      ∃ serialised_signature,
        get_latest_data enc (emit_signature enc s) = some serialised_signature ∧
        ((MerkleTreeHistory.deserialise sig.tree).append enc.Sha256Hash
            (enc.Sha256Hash serialised_signature)).get_root enc.Sha256Hash =
          get_replicated_state_root enc (emit_signature enc s)) ∧
    (∀ sig, (run enc fresh ops).entries[i]? = some (Tx.signature sig) →
      (MerkleTreeHistory.deserialise sig.tree).get_root enc.Sha256Hash =
        get_replicated_state_root enc (run enc fresh (ops.take i)) ∧
      ((MerkleTreeHistory.deserialise sig.tree).append enc.Sha256Hash
          (enc.Sha256Hash (enc.serialise_tx (Tx.signature sig)))).get_root enc.Sha256Hash =
        get_replicated_state_root enc (run enc fresh (ops.take (i + 1)))) := by
  constructor
  · refine ⟨⟨s.current_version + 1, s.get_replicated_state_root enc, s.history.serialise⟩,
      ?_, rfl, rfl, ?_⟩
    · exact Tables.replay_signature_last _ _ _
    · refine ⟨enc.serialise_tx (Tx.signature
        ⟨s.current_version + 1, s.get_replicated_state_root enc, s.history.serialise⟩),
        ?_, rfl⟩
      unfold get_latest_data emit_signature commit
      simp
  · intro sig hsig
    have htree := ((run_invariant enc ops).2.2.2.2 i sig hsig).1
    have hbefore : (run enc fresh (ops.take i)).history =
        MerkleTreeHistory.empty.append_all enc.Sha256Hash
          (((run enc fresh ops).entries.take i).map (leaf enc)) := by
      rw [(run_invariant enc (ops.take i)).2.2.2.1, run_take_entries]
    have hafter : (run enc fresh (ops.take (i + 1))).history =
        MerkleTreeHistory.empty.append_all enc.Sha256Hash
          (((run enc fresh ops).entries.take (i + 1)).map (leaf enc)) := by
      rw [(run_invariant enc (ops.take (i + 1))).2.2.2.1, run_take_entries]
    have htake : (run enc fresh ops).entries.take (i + 1) =
        (run enc fresh ops).entries.take i ++ [Tx.signature sig] := by
      rw [List.take_succ, hsig]
      rfl
    have hrebuilt : MerkleTreeHistory.deserialise sig.tree =
        (run enc fresh (ops.take i)).history := by
      rw [hbefore, htree]
      rfl
    constructor
    · rw [hrebuilt]
      rfl
    · rw [hrebuilt]
      unfold get_replicated_state_root
      rw [hafter, htake, List.map_append, List.map_singleton,
        MerkleTreeHistory.append_all_concat, ← hbefore]
      rfl

/-- C14 on the test's scenario: the tree rebuilt from the signature record at
version 4 has the root of the source after its three writes, and with the hash
of the serialised signature appended, the source's current root. -/
theorem C14_tree_from_signature_witness :
    (MerkleTreeHistory.deserialise [(0, [3, 141]), (1, [4, 55])]).get_root
        sample_encoding.Sha256Hash =
      get_replicated_state_root sample_encoding
        (run sample_encoding fresh [Op.put [1] [9], Op.put [2] [9], Op.put [3] [9]]) ∧
    ((MerkleTreeHistory.deserialise [(0, [3, 141]), (1, [4, 55])]).append
        sample_encoding.Sha256Hash
        (sample_encoding.Sha256Hash (sample_encoding.serialise_tx
          (Tx.signature ⟨4, [4, 157], [(0, [3, 141]), (1, [4, 55])]⟩)))).get_root
        sample_encoding.Sha256Hash =
      get_replicated_state_root sample_encoding test_source :=
  (C14_tree_from_signature sample_encoding fresh
    [Op.put [1] [9], Op.put [2] [9], Op.put [3] [9], Op.emit_signature] 3).2
    ⟨4, [4, 157], [(0, [3, 141]), (1, [4, 55])]⟩ (by decide)

end kv
